import Mathlib

/-!
Verification of the momentum-web-app hyperparameter optimizer
(`market-sentry/hyperparameter_optimizer.py`).

The development shallowly embeds the backtest simulation engine
(`MomentumBreakoutBacktester`), its metrics calculator and the walk-forward
validator of `HyperparameterOptimizer` into Lean.  Python floats are modelled
as exact rationals (`ℚ`); pandas timestamps are modelled as integer minutes
(`ℤ`), which makes the source's `total_seconds()/60` age arithmetic exact;
`pd.Series.get(key, default) or default` field access is modelled by
`Option ℚ` fields together with `optOr` (both a missing key and a stored
falsy `0.0` yield the default, exactly as Python's `or` does).
-/

set_option allowUnsafeReducibility true
attribute [semireducible] Rat.add Rat.mul Rat.sub Rat.inv

namespace MarketSentry

/-- Entry timeframe choice, the `timeframe` parameter of the strategy
(`'1m' | '5m' | '15m' | '30m' | '1h' | '4h' | '1d'`). -/
inductive Timeframe where
  | tf1m | tf5m | tf15m | tf30m | tf1h | tf4h | tf1d
  deriving DecidableEq, Repr

/-- One candle row: timestamp (minutes), close price, and the optional
indicator columns read by the strategy.  A field holds `none` when the column
is absent from the row; `pd.Series.get` then returns the caller's default.
Columns the strategy never reads (open/high/low/volume, `book_imb`) are not
modelled. -/
structure Candle where
  ts : ℤ
  close : ℚ
  roc_1m : Option ℚ := none
  roc_5m : Option ℚ := none
  roc_15m : Option ℚ := none
  roc_30m : Option ℚ := none
  roc_1h : Option ℚ := none
  roc_4h : Option ℚ := none
  vol_mult : Option ℚ := none
  spread_bps : Option ℚ := none
  rsi_14 : Option ℚ := none
  macd : Option ℚ := none
  macd_signal : Option ℚ := none
  bb_upper : Option ℚ := none
  bb_lower : Option ℚ := none
  deriving DecidableEq, Repr

/-- Python `series.get(key, default) or default`: a missing key yields the
default, and so does a stored `0.0`, because `0.0` is falsy under `or`. -/
def optOr (o : Option ℚ) (d : ℚ) : ℚ :=
  match o with
  | none => d
  | some v => if v = 0 then d else v

/-- The strategy parameter dictionary.  Each field's default is the
`params.get(key, default)` fallback used in the source
(`check_entry_conditions`, lines 129-135, and `__init__`, lines 75-76). -/
structure Params where
  minRoc5m : ℚ := 1/2
  minVolMult : ℚ := 2
  maxSpreadBps : ℚ := 8
  leverage : ℚ := 1
  riskPct : ℚ := 20
  stopLossPct : ℚ := 1/50
  takeProfitPct : ℚ := 3/100
  timeframe : Timeframe := .tf5m
  deriving DecidableEq, Repr

/-- Fee rate in basis points per trade (`self.fee_bps = 4`). -/
def fee_bps : ℚ := 4

/-- Slippage in basis points (`self.slippage_bps = 2`). -/
def slippage_bps : ℚ := 2

/-- Source `calculate_fees` (lines 302-306): `notional * (fee_rate + slippage_rate)`
with the bps rates converted to decimals. -/
def calculate_fees (notional_value : ℚ) : ℚ :=
  notional_value * (fee_bps / 10000 + slippage_bps / 10000)

/-- Source `get_roc_value` (lines 113-125): select the ROC column for the configured
timeframe (`'1d'` proxies to `roc_4h`), defaulting to `0.0`. -/
def get_roc_value (c : Candle) (tf : Timeframe) : ℚ :=
  optOr
    (match tf with
     | .tf1m => c.roc_1m
     | .tf5m => c.roc_5m
     | .tf15m => c.roc_15m
     | .tf30m => c.roc_30m
     | .tf1h => c.roc_1h
     | .tf4h => c.roc_4h
     | .tf1d => c.roc_4h)
    0

/-- Entry sub-condition 1 (line 146): `roc_value >= min_roc_threshold`. -/
def momentum_ok (p : Params) (c : Candle) : Bool :=
  decide (get_roc_value c p.timeframe ≥ p.minRoc5m)

/-- Entry sub-condition 2 (line 149): `vol_mult >= min_vol_mult`. -/
def volume_ok (p : Params) (c : Candle) : Bool :=
  decide (optOr c.vol_mult 1 ≥ p.minVolMult)

/-- Entry sub-condition 3 (line 152): `spread_bps <= max_spread_bps`. -/
def spread_ok (p : Params) (c : Candle) : Bool :=
  decide (optOr c.spread_bps 0 ≤ p.maxSpreadBps)

/-- Entry sub-condition 4 (line 155): `rsi_14 <= 70.0` (not overbought). -/
def rsi_ok (c : Candle) : Bool :=
  decide (optOr c.rsi_14 50 ≤ 70)

/-- Entry sub-condition 5 (lines 159-160): 15m ROC `>= 0.05` (uptrend). -/
def trend_ok (c : Candle) : Bool :=
  decide (optOr c.roc_15m 0 ≥ 5/100)

/-- Entry sub-condition 6 (lines 163-164): `vol_mult >= 1.0`. -/
def volume_spike_ok (c : Candle) : Bool :=
  decide (optOr c.vol_mult 1 ≥ 1)

/-- Entry sub-condition 7 (lines 167-169): `macd > macd_signal`. -/
def macd_ok (c : Candle) : Bool :=
  decide (optOr c.macd 0 > optOr c.macd_signal 0)

/-- Bollinger-band position (lines 172-175): missing bounds default to
`close * 1.1` and `close * 0.9`; a non-positive band width yields `0.5`. -/
def bb_position (c : Candle) : ℚ :=
  let bb_upper := optOr c.bb_upper (c.close * (11/10))
  let bb_lower := optOr c.bb_lower (c.close * (9/10))
  if bb_upper - bb_lower > 0 then (c.close - bb_lower) / (bb_upper - bb_lower)
  else 1/2

/-- Entry sub-condition 8 (line 176): `bb_position >= 0.5`. -/
def bb_ok (c : Candle) : Bool :=
  decide (bb_position c ≥ 1/2)

/-- Entry sub-condition 9 (lines 179-180): `roc_1m >= 0.01`. -/
def roc_1m_ok (c : Candle) : Bool :=
  decide (optOr c.roc_1m 0 ≥ 1/100)

/-- The nine boolean sub-conditions in source order (line 183). -/
def conditionsList (p : Params) (c : Candle) : List Bool :=
  [momentum_ok p c, volume_ok p c, spread_ok p c, rsi_ok c, trend_ok c,
   volume_spike_ok c, macd_ok c, bb_ok c, roc_1m_ok c]

/-- Count of satisfied sub-conditions, `conditions_met = sum(conditions)` (line 184). -/
def conditions_met (p : Params) (c : Candle) : ℕ :=
  ((conditionsList p c).map Bool.toNat).sum

/-- The dictionary returned by `check_entry_conditions` on success
(lines 203-215).  The constant string fields (`symbol`, `side`, `reason`)
are not modelled. -/
structure EntrySignal where
  size : ℚ
  entry_price : ℚ
  stop_loss : ℚ
  take_profit : ℚ
  trailing_stop_pct : ℚ
  highest_price : ℚ
  leverage : ℚ
  timestamp : ℤ
  deriving DecidableEq, Repr

/-- Source `check_entry_conditions` (lines 127-217): count the nine sub-conditions
and, when at least `2` hold, size a position from the current capital and
return the entry dictionary; otherwise return `None`.  The `>= 2` threshold
is the literal constant of line 187. -/
def check_entry_conditions (p : Params) (c : Candle) (current_capital : ℚ) :
    Option EntrySignal :=
  if 2 ≤ conditions_met p c then
    let risk_amount := current_capital * (p.riskPct / 100)
    let position_notional := risk_amount * p.leverage
    let position_size := position_notional / c.close
    let entry_price := c.close
    let take_profit_pct := max p.takeProfitPct (p.stopLossPct * 3)
    some
      { size := position_size
        entry_price := entry_price
        stop_loss := entry_price * (1 - p.stopLossPct)
        take_profit := entry_price * (1 + take_profit_pct)
        trailing_stop_pct := p.stopLossPct * (8/10)
        highest_price := entry_price
        leverage := p.leverage
        timestamp := c.ts }
  else none

/-- A position dictionary as consumed by `check_exit_conditions`.
`trailing_stop_pct` and `highest_price` are `Option`s because the position
dictionary built by `run_backtest` (lines 359-369) does not carry these keys;
`check_exit_conditions` reads them through `in` / `.get` with defaults.
The `scale_i_taken` flags default to `False` through `.get` likewise. -/
structure Position where
  size : ℚ
  entry_price : ℚ
  stop_loss : ℚ
  take_profit : ℚ
  leverage : ℚ
  entry_timestamp : ℤ
  cost_basis : ℚ
  trailing_stop_pct : Option ℚ := none
  highest_price : Option ℚ := none
  scale_1_taken : Bool := false
  scale_2_taken : Bool := false
  scale_3_taken : Bool := false
  deriving DecidableEq, Repr

/-- Exit reason enumeration (source string literals). -/
inductive ExitReason where
  | take_profit | trailing_stop_loss | stop_loss
  | time_based_profit_exit | time_based_loss_exit
  | momentum_loss | rsi_overbought
  deriving DecidableEq, Repr

/-- The dictionary returned by `check_exit_conditions` on exit. -/
structure ExitSignal where
  exit_price : ℚ
  exit_reason : ExitReason
  timestamp : ℤ
  deriving DecidableEq, Repr

/-- Lines 221-223: record a new highest price when the current price exceeds
`position.get('highest_price', entry_price)`. -/
def updateHighest (pos : Position) (current_price : ℚ) : Position :=
  if current_price > pos.highest_price.getD pos.entry_price then
    { pos with highest_price := some current_price }
  else pos

/-- Lines 221-229: update the highest price, then — when trailing is active —
ratchet the stop-loss to `max(stop_loss, highest_price * (1 - trailing_pct))`. -/
def updateTrailing (pos : Position) (current_price : ℚ) : Position :=
  let pos1 := updateHighest pos current_price
  match pos1.trailing_stop_pct with
  | some tpct =>
      { pos1 with
        stop_loss := max pos1.stop_loss
          ((pos1.highest_price.getD pos1.entry_price) * (1 - tpct)) }
  | none => pos1

/-- Lines 250-266: set the three scale-out bookkeeping flags; they influence
no other computation. -/
def updateScales (pos : Position) (current_price : ℚ) : Position :=
  let pos1 :=
    if current_price ≥ pos.entry_price * (1015/1000) ∧ pos.scale_1_taken = false
    then { pos with scale_1_taken := true } else pos
  let pos2 :=
    if current_price ≥ pos1.entry_price * (103/100) ∧ pos1.scale_2_taken = false
    then { pos1 with scale_2_taken := true } else pos1
  if current_price ≥ pos2.entry_price * (105/100) ∧ pos2.scale_3_taken = false
  then { pos2 with scale_3_taken := true } else pos2

/-- Source `check_exit_conditions` (lines 219-300).  Returns the position as mutated
by the call together with the optional exit signal.  Branch order follows the
source: trailing update, take-profit, stop-loss, scale-out flags, time-based
profit exit (age ≥ 10 minutes and in profit), time-based loss exit (age ≥ 30
minutes and in loss), momentum-loss and RSI-overbought reversal signals. -/
def check_exit_conditions (p0 : Position) (current_price : ℚ) (c : Candle) :
    Position × Option ExitSignal :=
  let pos := updateTrailing p0 current_price
  if current_price ≥ pos.take_profit then
    (pos, some ⟨current_price, .take_profit, c.ts⟩)
  else if current_price ≤ pos.stop_loss then
    (pos, some ⟨current_price,
      if pos.trailing_stop_pct.isSome then .trailing_stop_loss else .stop_loss,
      c.ts⟩)
  else
    let pos := updateScales pos current_price
    let age : ℤ := c.ts - pos.entry_timestamp
    if 10 ≤ age ∧ pos.entry_price < current_price then
      (pos, some ⟨current_price, .time_based_profit_exit, c.ts⟩)
    else if 30 ≤ age ∧ current_price < pos.entry_price then
      (pos, some ⟨current_price, .time_based_loss_exit, c.ts⟩)
    else if optOr c.roc_1m 0 < -(1/5) then
      (pos, some ⟨current_price, .momentum_loss, c.ts⟩)
    else if optOr c.rsi_14 50 > 85 then
      (pos, some ⟨current_price, .rsi_overbought, c.ts⟩)
    else (pos, none)

/-- A completed trade record (lines 402-414).  The constant string fields are
not modelled.  `fees` adds the *most recently computed* entry fee to the exit
fee, faithfully reproducing the source's reuse of the loop-local
`entry_fees` variable at line 411. -/
structure Trade where
  entry_timestamp : ℤ
  exit_timestamp : ℤ
  entry_price : ℚ
  exit_price : ℚ
  quantity : ℚ
  realized_pnl : ℚ
  fees : ℚ
  leverage : ℚ
  exit_reason : ExitReason
  deriving DecidableEq, Repr

/-- The mutable simulator state of `run_backtest`: capital, open positions,
completed trades, equity curve, accumulated fees, the last computed entry fee
(the Python loop variable `entry_fees`, read when recording a trade), and a
ghost counter of opened positions used only in statements. -/
structure BTState where
  capital : ℚ
  positions : List Position
  trades : List Trade
  equity_curve : List (ℤ × ℚ)
  fees_paid : ℚ
  lastEntryFee : ℚ
  opened : ℕ
  deriving DecidableEq, Repr

/-- Lines 350-377: evaluate one admitted 15m bar; on an entry signal, append
the new position (without trailing/highest/scale keys), debit the entry fee
from capital and accumulate it. -/
def processEntry (p : Params) (st : BTState) (bar : Candle) : BTState :=
  match check_entry_conditions p bar st.capital with
  | none => st
  | some sig =>
      let pos : Position :=
        { size := sig.size
          entry_price := sig.entry_price
          stop_loss := sig.stop_loss
          take_profit := sig.take_profit
          leverage := sig.leverage
          entry_timestamp := sig.timestamp
          cost_basis := sig.size * sig.entry_price }
      let entry_fees := calculate_fees pos.cost_basis
      { st with
        positions := st.positions ++ [pos]
        capital := st.capital - entry_fees
        fees_paid := st.fees_paid + entry_fees
        lastEntryFee := entry_fees
        opened := st.opened + 1 }

/-- The body of the exit loop (lines 384-424) for one open position, folded
over `(capital, kept positions, new trades, exit fees)`.  A signalled
position is closed — its trade is recorded with
`realized_pnl = (exit_value - cost_basis) * leverage - exit_fees` (lines
393-398, note: the entry fee is *not* subtracted here) and capital is
credited — otherwise the position is kept with its in-place mutations.
`lastFee` is the Python loop variable `entry_fees` read at line 411. -/
def exitStep (lastFee : ℚ) (current_price : ℚ) (c : Candle)
    (acc : ℚ × List Position × List Trade × ℚ) (pos : Position) :
    ℚ × List Position × List Trade × ℚ :=
  let (cap, kept, trs, fees) := acc
  let r := check_exit_conditions pos current_price c
  match r.2 with
  | none => (cap, kept ++ [r.1], trs, fees)
  | some sig =>
      let exit_value := r.1.size * sig.exit_price
      let exit_fees := calculate_fees exit_value
      let realized_pnl := (exit_value - r.1.cost_basis) * r.1.leverage - exit_fees
      let tr : Trade :=
        { entry_timestamp := r.1.entry_timestamp
          exit_timestamp := sig.timestamp
          entry_price := r.1.entry_price
          exit_price := sig.exit_price
          quantity := r.1.size
          realized_pnl := realized_pnl
          fees := lastFee + exit_fees
          leverage := r.1.leverage
          exit_reason := sig.exit_reason }
      (cap + realized_pnl, kept, trs ++ [tr], fees + exit_fees)

/-- Lines 382-428: run `check_exit_conditions` over every open position in
order, then commit the fold result to the state (closed positions removed,
their trades appended, capital and fees updated). -/
def processExits (st : BTState) (current_price : ℚ) (c : Candle) : BTState :=
  let r := st.positions.foldl (exitStep st.lastEntryFee current_price c)
    (st.capital, [], [], 0)
  { st with
    capital := r.1
    positions := r.2.1
    trades := st.trades ++ r.2.2.1
    fees_paid := st.fees_paid + r.2.2.2 }

/-- Lines 431-434: unrealized PnL of the open positions at the current price. -/
def unrealizedSum (current_price : ℚ) (ps : List Position) : ℚ :=
  (ps.map (fun q => (current_price - q.entry_price) * q.size * q.leverage)).sum

/-- Trace event: one entry evaluation of an admitted 15m bar, or one exit
check of an open position (identified by its entry timestamp). -/
inductive Ev where
  | entryEval (bar : Candle)
  | exitEval (posEntryTs : ℤ)
  deriving DecidableEq, Repr

/-- Ghost log of one fine-grained step: its timestamp and close price, the
15m bars still unadmitted when the step began, the bars admitted during the
step, the positions whose exits were checked, the flat event trace in source
execution order, and the post-step capital, open positions and equity point. -/
structure StepLog where
  t : ℤ
  price : ℚ
  rem15Before : List Candle
  admitted : List Candle
  exitsChecked : List Position
  events : List Ev
  capAfter : ℚ
  posAfter : List Position
  equityPoint : ℤ × ℚ
  deriving DecidableEq, Repr

/-- One iteration of the 1m loop (lines 334-436): admit the leading run of
still-pending 15m bars whose timestamp is `≤` the 1m timestamp (the source's
`for i in range(last_15m_idx, ...)` with `break`, i.e. `takeWhile`), evaluate
entries on them in order, then check exits, then append the equity point. -/
def runStep (p : Params) (stp : BTState × List Candle) (c : Candle) :
    (BTState × List Candle) × StepLog :=
  let (st0, rem15) := stp
  let current_price := c.close
  let admitted := rem15.takeWhile (fun b => decide (b.ts ≤ c.ts))
  let rem' := rem15.dropWhile (fun b => decide (b.ts ≤ c.ts))
  let st1 := admitted.foldl (processEntry p) st0
  let exitsChecked := st1.positions
  let st2 := processExits st1 current_price c
  let eq := st2.capital + unrealizedSum current_price st2.positions
  let st3 := { st2 with equity_curve := st2.equity_curve ++ [(c.ts, eq)] }
  ((st3, rem'),
   { t := c.ts
     price := current_price
     rem15Before := rem15
     admitted := admitted
     exitsChecked := exitsChecked
     events := admitted.map Ev.entryEval
                 ++ exitsChecked.map (fun q => Ev.exitEval q.entry_timestamp)
     capAfter := st2.capital
     posAfter := st2.positions
     equityPoint := (c.ts, eq) })

/-- Final simulator state plus the unadmitted 15m remainder and the ghost
step logs. -/
structure BTResult extends BTState where
  rem15 : List Candle
  logs : List StepLog
  deriving DecidableEq, Repr

/-- The fold step of `run_backtest`: execute `runStep` and append its ghost
log. -/
def runAccum (p : Params) (acc : (BTState × List Candle) × List StepLog)
    (c : Candle) : (BTState × List Candle) × List StepLog :=
  ((runStep p acc.1 c).1, acc.2 ++ [(runStep p acc.1 c).2])

/-- Source `run_backtest` (lines 308-439) as a state fold over the 1m stream.  The
equity curve is seeded with `(df_1m.index[0], initial_capital)` (line 324)
before the loop; an empty 1m stream makes the source raise on
`df_1m.index[0]`, modelled as `none`.  The source sorts both frames by
timestamp first (lines 328-329); theorems about admission order therefore
carry the corresponding sortedness hypotheses. -/
def run_backtest (p : Params) (df_15m df_1m : List Candle)
    (initial_capital : ℚ) : Option BTResult :=
  match df_1m with
  | [] => none
  | c0 :: rest =>
      let init : BTState :=
        { capital := initial_capital, positions := [], trades := []
          equity_curve := [(c0.ts, initial_capital)], fees_paid := 0
          lastEntryFee := 0, opened := 0 }
      let r := (c0 :: rest).foldl (runAccum p) ((init, df_15m), [])
      some { toBTState := r.1.1, rem15 := r.1.2, logs := r.2 }

/-- Source `calculate_roc_safely` (lines 83-111) over the `close` column: `0.0` when
fewer than `periods` past rows exist, `0.0` when the reference price is
exactly zero (the source guard is `past_price == 0`, not `<= 0`), otherwise
`((current / past) - 1) * 100`. -/
def calculate_roc_safely (closes : List ℚ) (periods current_idx : ℕ) : ℚ :=
  if current_idx < periods then 0
  else
    let current_price := closes.getD current_idx 0
    let past_price := closes.getD (current_idx - periods) 0
    if past_price = 0 then 0
    else (current_price / past_price - 1) * 100

/-- Mean of a rational list (`np.mean`; `0` on the empty list never arises at
its call sites with the guards modelled). -/
def listMean (l : List ℚ) : ℚ := l.sum / l.length

/-- Population variance (`np.std(...)**2`, numpy default `ddof=0`). -/
def listVar (l : List ℚ) : ℚ :=
  ((l.map (fun x => (x - listMean l) ^ 2)).sum) / l.length

/-- Returns `np.diff(equity_values) / equity_values[:-1]` (line 471): step-over-step
percentage changes of the equity values. -/
def pctReturns (eqs : List ℚ) : List ℚ :=
  (eqs.zip eqs.tail).map (fun ab => (ab.2 - ab.1) / ab.1)

/-- Sharpe ratio of `_calculate_metrics` (lines 468-477).  The source value
is `sqrt(252) * mean(returns) / std(returns)`, an irrational real in general;
no claim of this development constrains it off its defined-zero branches.  We
embed the two zero guards exactly (fewer than two equity points; empty
returns or zero standard deviation) and represent the remaining branch by the
signed square `sign(mean) * 252 * mean^2 / variance`, which is zero, positive
or negative exactly when the source value is. -/
def sharpe_model (eqs : List ℚ) : ℚ :=
  if 1 < eqs.length then
    let rs := pctReturns eqs
    if 0 < rs.length ∧ 0 < listVar rs then
      (if 0 ≤ listMean rs then 1 else -1) * (252 * (listMean rs) ^ 2 / listVar rs)
    else 0
  else 0

/-- Maximum drawdown (lines 479-486): fold a running peak (seeded with the
initial capital) and the largest `(peak - equity) / peak` over the equity
values. -/
def maxDrawdown (initial_capital : ℚ) (eqs : List ℚ) : ℚ :=
  (eqs.foldl
    (fun (acc : ℚ × ℚ) eq =>
      let peak := max acc.1 eq
      (peak, max acc.2 ((peak - eq) / peak)))
    (initial_capital, 0)).2

/-- The performance summary returned by `_calculate_metrics`.  The
`equity_curve` entry of the source dict is the curve itself and is kept on
`BTResult`; `profit_factor` is `none` for the `float('inf')` sentinel. -/
structure Summary where
  total_trades : ℕ
  win_rate : ℚ
  total_pnl : ℚ
  total_fees : ℚ
  sharpe_ratio : ℚ
  max_drawdown : ℚ
  profit_factor : Option ℚ
  avg_win : ℚ
  avg_loss : ℚ
  final_equity : ℚ
  deriving DecidableEq, Repr

/-- Source `_calculate_metrics` (lines 441-509).  With no trades it returns the
literal degenerate record of lines 444-456 (note `final_equity` is the
initial capital there, not the last equity point); otherwise it aggregates
the trade list and equity curve. -/
def calculate_metrics (initial_capital : ℚ) (trades : List Trade)
    (equity_curve : List (ℤ × ℚ)) (fees_paid : ℚ) : Summary :=
  if trades = [] then
    { total_trades := 0, win_rate := 0, total_pnl := 0, total_fees := fees_paid
      sharpe_ratio := 0, max_drawdown := 0, profit_factor := some 0
      avg_win := 0, avg_loss := 0, final_equity := initial_capital }
  else
    let winning := trades.filter (fun t => decide (t.realized_pnl > 0))
    let losing := trades.filter (fun t => decide (t.realized_pnl ≤ 0))
    let total_pnl := (trades.map Trade.realized_pnl).sum
    let win_rate := (winning.length : ℚ) / (trades.length : ℚ)
    let avg_win :=
      if winning = [] then 0 else listMean (winning.map Trade.realized_pnl)
    let avg_loss :=
      if losing = [] then 0 else listMean (losing.map Trade.realized_pnl)
    let equity_values := equity_curve.map Prod.snd
    let gross_profit := (winning.map Trade.realized_pnl).sum
    let gross_loss := |(losing.map Trade.realized_pnl).sum|
    let final_equity :=
      match equity_curve.getLast? with
      | some pt => pt.2
      | none => initial_capital
    { total_trades := trades.length
      win_rate := win_rate
      total_pnl := total_pnl
      total_fees := fees_paid
      sharpe_ratio := sharpe_model equity_values
      max_drawdown := maxDrawdown initial_capital equity_values
      profit_factor := if gross_loss > 0 then some (gross_profit / gross_loss) else none
      avg_win := avg_win
      avg_loss := avg_loss
      final_equity := final_equity }

/-- Composition: `run_backtest` returns `self._calculate_metrics(initial_capital)`
(line 439): the summary of the final state. -/
def backtest_summary (p : Params) (df_15m df_1m : List Candle)
    (initial_capital : ℚ) : Option Summary :=
  (run_backtest p df_15m df_1m initial_capital).map
    (fun r => calculate_metrics initial_capital r.trades r.equity_curve r.fees_paid)

/-- Segment bounds of `walk_forward_validation` (lines 722-729): the split
size is `total_periods // n_splits`, segment `i` spans
`[i*split, (i+1)*split)` and the last segment extends to `total_periods`.
`total_periods` is `len(self.data_15m)` — the 15m row count. -/
def wfBounds (total n_splits i : ℕ) : ℕ × ℕ :=
  let split_size := total / n_splits
  (i * split_size, if i < n_splits - 1 then (i + 1) * split_size else total)

/-- Computes `train_end = start_idx + int((end_idx - start_idx) * 0.67)` (line 732).
The source truncates the product computed in binary floating point; for every
segment length below 300 the float and exact truncations agree, in particular
on all inputs appearing in this development. -/
def wfTrainEnd (start_idx end_idx : ℕ) : ℕ :=
  start_idx + (end_idx - start_idx) * 67 / 100

/-- Positional row slice `df.iloc[a:b]`. -/
def ilocSlice {α : Type} (l : List α) (a b : ℕ) : List α :=
  (l.drop a).take (b - a)

/-- The validation pair handed to `run_backtest` for split `i` (lines
737-742): rows `[train_end, end_idx)` of the 15m frame and — with the *same*
positional indices, which were computed from the 15m row count — rows
`[train_end, end_idx)` of the 1m frame. -/
def wfValPair (data_15m data_1m : List Candle) (n_splits i : ℕ) :
    List Candle × List Candle :=
  let se := wfBounds data_15m.length n_splits i
  let train_end := wfTrainEnd se.1 se.2
  (ilocSlice data_15m train_end se.2, ilocSlice data_1m train_end se.2)

/-- The robustness verdict (line 767):
`avg_sharpe > 0.5 and avg_win_rate > 0.55 and avg_max_dd < 0.15`. -/
def is_robust (avg_sharpe avg_win_rate avg_max_dd : ℚ) : Bool :=
  decide (avg_sharpe > 1/2) && decide (avg_win_rate > 11/20)
    && decide (avg_max_dd < 3/20)

/-- A candle row carrying only a timestamp and a close price — every optional
indicator column is absent.  Used for the concrete scenarios below. -/
def bareBar (t : ℤ) (cl : ℚ) : Candle := { ts := t, close := cl }

/-!
Helper lemmas about the exit-condition updates.
-/

lemma updateHighest_eq (pos : Position) (pr : ℚ) :
    ∃ hp, updateHighest pos pr = { pos with highest_price := hp } := by
  unfold updateHighest
  split
  · exact ⟨_, rfl⟩
  · exact ⟨pos.highest_price, rfl⟩

lemma updateHighest_getD (pos : Position) (pr : ℚ) :
    (updateHighest pos pr).highest_price.getD (updateHighest pos pr).entry_price
      = max (pos.highest_price.getD pos.entry_price) pr := by
  unfold updateHighest
  split
  · rename_i h
    simp [max_eq_right (le_of_lt h)]
  · rename_i h
    simp [max_eq_left (not_lt.mp h)]

lemma updateTrailing_eq (pos : Position) (pr : ℚ) :
    ∃ sl hp, updateTrailing pos pr = { pos with stop_loss := sl, highest_price := hp }
      ∧ pos.stop_loss ≤ sl := by
  unfold updateTrailing
  obtain ⟨hp, heq⟩ := updateHighest_eq pos pr
  rw [heq]
  cases h : ({ pos with highest_price := hp } : Position).trailing_stop_pct with
  | none => exact ⟨pos.stop_loss, hp, rfl, le_refl _⟩
  | some tpct => exact ⟨_, hp, rfl, le_max_left _ _⟩

lemma updateTrailing_stop_eq (pos : Position) (pr : ℚ) (tpct : ℚ)
    (h : pos.trailing_stop_pct = some tpct) :
    (updateTrailing pos pr).stop_loss
      = max pos.stop_loss
          ((max (pos.highest_price.getD pos.entry_price) pr) * (1 - tpct)) := by
  obtain ⟨hp, heq⟩ := updateHighest_eq pos pr
  have htr : (updateHighest pos pr).trailing_stop_pct = some tpct := by rw [heq]; exact h
  have hsl : (updateHighest pos pr).stop_loss = pos.stop_loss := by rw [heq]
  have hgd := updateHighest_getD pos pr
  simp only [updateTrailing, htr, hsl, hgd]

lemma updateScales_eq (pos : Position) (pr : ℚ) :
    ∃ b1 b2 b3, updateScales pos pr
      = { pos with scale_1_taken := b1, scale_2_taken := b2, scale_3_taken := b3 } := by
  simp only [updateScales]
  split <;> split <;> split <;> exact ⟨_, _, _, rfl⟩

lemma check_exit_pos_cases (pos : Position) (pr : ℚ) (c : Candle) :
    (check_exit_conditions pos pr c).1 = updateTrailing pos pr
      ∨ (check_exit_conditions pos pr c).1 = updateScales (updateTrailing pos pr) pr := by
  simp only [check_exit_conditions]
  repeat' split
  all_goals simp

/-- The exit check can only raise the stop-loss, never lower it. -/
lemma check_exit_stop_mono (pos : Position) (pr : ℚ) (c : Candle) :
    pos.stop_loss ≤ (check_exit_conditions pos pr c).1.stop_loss := by
  rcases check_exit_pos_cases pos pr c with h | h <;> rw [h]
  · obtain ⟨sl, hp, heq, hle⟩ := updateTrailing_eq pos pr
    rw [heq]
    exact hle
  · obtain ⟨sl, hp, heq, hle⟩ := updateTrailing_eq pos pr
    obtain ⟨b1, b2, b3, heq2⟩ := updateScales_eq (updateTrailing pos pr) pr
    rw [heq2, heq]
    exact hle

/-- The exit check leaves the identifying and accounting fields of a position
untouched; only `stop_loss`, `highest_price` and the scale flags mutate. -/
lemma check_exit_frame (pos : Position) (pr : ℚ) (c : Candle) :
    (check_exit_conditions pos pr c).1.size = pos.size
      ∧ (check_exit_conditions pos pr c).1.entry_price = pos.entry_price
      ∧ (check_exit_conditions pos pr c).1.cost_basis = pos.cost_basis
      ∧ (check_exit_conditions pos pr c).1.leverage = pos.leverage
      ∧ (check_exit_conditions pos pr c).1.entry_timestamp = pos.entry_timestamp
      ∧ (check_exit_conditions pos pr c).1.trailing_stop_pct = pos.trailing_stop_pct
      ∧ (check_exit_conditions pos pr c).1.take_profit = pos.take_profit := by
  obtain ⟨sl, hp, heq, -⟩ := updateTrailing_eq pos pr
  rcases check_exit_pos_cases pos pr c with h | h <;> rw [h]
  · rw [heq]
    simp
  · obtain ⟨b1, b2, b3, heq2⟩ := updateScales_eq (updateTrailing pos pr) pr
    rw [heq2, heq]
    simp

/-!
Generic list lemmas used by the run-level inductions.
-/

lemma foldl_preserve {α β : Type} {f : β → α → β} {P : β → Prop}
    (hf : ∀ b a, P b → P (f b a)) :
    ∀ (l : List α) (b : β), P b → P (l.foldl f b) := by
  intro l
  induction l with
  | nil => intro b hb; simpa using hb
  | cons a rest ih => intro b hb; rw [List.foldl_cons]; exact ih _ (hf b a hb)

/-- On a timestamp-sorted list, the leading run of bars with `ts ≤ t` is
exactly the set of bars with `ts ≤ t`. -/
lemma takeWhile_eq_filter_ts (t : ℤ) : ∀ (l : List Candle),
    l.Pairwise (fun a b => a.ts ≤ b.ts) →
    l.takeWhile (fun b => decide (b.ts ≤ t)) = l.filter (fun b => decide (b.ts ≤ t)) := by
  intro l
  induction l with
  | nil => intro _; rfl
  | cons a rest ih =>
    intro hp
    rw [List.pairwise_cons] at hp
    by_cases ha : a.ts ≤ t
    · simp [List.takeWhile_cons, List.filter_cons, ha, ih hp.2]
    · have hrest : rest.filter (fun b => decide (b.ts ≤ t)) = [] := by
        rw [List.filter_eq_nil_iff]
        intro b hb
        simp only [decide_eq_true_eq]
        intro hbt
        exact ha (le_trans (hp.1 b hb) hbt)
      simp [List.takeWhile_cons, List.filter_cons, ha, hrest]

/-!
The sequence of positions produced by iterated exit checks, and its
stop-loss values.
-/

/-- The sequence of position states across a list of exit-evaluation steps
(each step is a `(current_price, 1m candle)` pair), starting from `pos`. -/
def positionTrace (pos : Position) (steps : List (ℚ × Candle)) : List Position :=
  steps.scanl (fun q pc => (check_exit_conditions q pc.1 pc.2).1) pos

/-- The stop-loss values along `positionTrace`. -/
def stopLossTrace (pos : Position) (steps : List (ℚ × Candle)) : List ℚ :=
  (positionTrace pos steps).map Position.stop_loss

lemma stopLossTrace_head (pos : Position) (steps : List (ℚ × Candle)) :
    (stopLossTrace pos steps).head? = some pos.stop_loss := by
  cases steps <;> simp [stopLossTrace, positionTrace]

lemma stopLossTrace_chain (pos : Position) (steps : List (ℚ × Candle)) :
    (stopLossTrace pos steps).Chain' (· ≤ ·) := by
  induction steps generalizing pos with
  | nil => simp [stopLossTrace, positionTrace]
  | cons s rest ih =>
    have hshape : stopLossTrace pos (s :: rest)
        = pos.stop_loss :: stopLossTrace ((check_exit_conditions pos s.1 s.2).1) rest := by
      simp [stopLossTrace, positionTrace]
    rw [hshape, List.chain'_cons']
    refine ⟨?_, ih _⟩
    intro y hy
    rw [stopLossTrace_head] at hy
    rw [Option.mem_some_iff] at hy
    rw [← hy]
    exact check_exit_stop_mono pos s.1 s.2

/-- C3.  Stop-loss monotonicity: for a Position with trailing logic active,
each exit evaluation sets the stop-loss to the maximum of its current value
and (updated) highest price times `1 - trailing_pct`, and across every
sequence of fine-grained exit-evaluation steps the stop-loss values are
monotonically non-decreasing — no operation ever lowers them. -/
theorem C3_stop_loss_monotonic (pos : Position) (tpct : ℚ)
    (h : pos.trailing_stop_pct = some tpct) (steps : List (ℚ × Candle)) :
    (∀ pr c, ((check_exit_conditions pos pr c).1).stop_loss
        = max pos.stop_loss
            ((max (pos.highest_price.getD pos.entry_price) pr) * (1 - tpct)))
      ∧ (stopLossTrace pos steps).Chain' (· ≤ ·) := by
  constructor
  · intro pr c
    rcases check_exit_pos_cases pos pr c with hc | hc <;> rw [hc]
    · exact updateTrailing_stop_eq pos pr tpct h
    · obtain ⟨b1, b2, b3, heq2⟩ := updateScales_eq (updateTrailing pos pr) pr
      rw [heq2]
      exact updateTrailing_stop_eq pos pr tpct h
  · exact stopLossTrace_chain pos steps

/-- A position with an active 0.8% trailing stop, used as concrete witness
input. -/
def demoTrailingPos : Position :=
  { size := 1, entry_price := 100, stop_loss := 98, take_profit := 1000
    leverage := 1, entry_timestamp := 0, cost_basis := 100
    trailing_stop_pct := some (1/100) }

/-- Witness for C3 at a concrete position and step sequence. -/
theorem C3_witness :
    demoTrailingPos.trailing_stop_pct = some (1/100)
      ∧ ((check_exit_conditions demoTrailingPos 105 (bareBar 1 100)).1).stop_loss
          = max demoTrailingPos.stop_loss
              ((max (demoTrailingPos.highest_price.getD demoTrailingPos.entry_price) 105)
                * (1 - 1/100))
      ∧ (stopLossTrace demoTrailingPos
          [(105, bareBar 1 100), (103, bareBar 2 100)]).Chain' (· ≤ ·) :=
  ⟨rfl,
   (C3_stop_loss_monotonic demoTrailingPos (1/100) rfl
     [(105, bareBar 1 100), (103, bareBar 2 100)]).1 105 (bareBar 1 100),
   (C3_stop_loss_monotonic demoTrailingPos (1/100) rfl
     [(105, bareBar 1 100), (103, bareBar 2 100)]).2⟩

/-- C5.  Entry gate: the entry evaluation computes the nine boolean
sub-conditions (`conditionsList`) and returns an entry signal exactly when
the count of satisfied sub-conditions reaches the threshold `2` (the
source's hard-coded minimum, line 187).  The positivity hypothesis on the
close price matches the source, which would raise a `ZeroDivisionError`
while sizing the position at a zero close. -/
theorem C5_entry_gate (p : Params) (c : Candle) (cap : ℚ) (_hclose : 0 < c.close) :
    (check_entry_conditions p c cap).isSome = true ↔ 2 ≤ conditions_met p c := by
  unfold check_entry_conditions
  split
  · rename_i h2
    simp [h2]
  · rename_i h2
    simp [h2]

/-- Witness for C5 at a bare candle and the default parameters. -/
theorem C5_witness :
    (0 : ℚ) < 100
      ∧ ((check_entry_conditions {} (bareBar 0 100) 10000).isSome = true
          ↔ 2 ≤ conditions_met {} (bareBar 0 100)) :=
  ⟨by norm_num, C5_entry_gate {} (bareBar 0 100) 10000 (by norm_num [bareBar])⟩

/-- A 15m stream with two bare bars; every bare bar passes the entry gate
(three of the nine sub-conditions hold on missing data). -/
def demoCoarse : List Candle := [bareBar 0 100, bareBar 30 100]

/-- A 1m stream under `demoCoarse`: the first position is closed by the
time-based profit exit at `ts = 11`, the second stays open at the end. -/
def demoFine : List Candle :=
  [bareBar 0 100, bareBar 11 101, bareBar 30 100, bareBar 31 103]

/-- C6.  Metrics degeneracy: on an empty trade sequence the metrics
calculator returns the literal degenerate summary — zero win rate, PnL,
Sharpe ratio, drawdown and profit factor, and `final_equity` equal to the
initial capital (source lines 443-456). -/
theorem C6_metrics_degenerate (initial_capital : ℚ) (trades : List Trade)
    (equity_curve : List (ℤ × ℚ)) (fees_paid : ℚ) (h : trades = []) :
    (calculate_metrics initial_capital trades equity_curve fees_paid).win_rate = 0
      ∧ (calculate_metrics initial_capital trades equity_curve fees_paid).total_pnl = 0
      ∧ (calculate_metrics initial_capital trades equity_curve fees_paid).sharpe_ratio = 0
      ∧ (calculate_metrics initial_capital trades equity_curve fees_paid).max_drawdown = 0
      ∧ (calculate_metrics initial_capital trades equity_curve fees_paid).profit_factor = some 0
      ∧ (calculate_metrics initial_capital trades equity_curve fees_paid).final_equity
          = initial_capital := by
  subst h
  simp [calculate_metrics]

/-- Witness for C6 on concrete empty inputs. -/
theorem C6_witness :
    (calculate_metrics 10000 [] [(0, 10000)] 0).win_rate = 0
      ∧ (calculate_metrics 10000 [] [(0, 10000)] 0).total_pnl = 0
      ∧ (calculate_metrics 10000 [] [(0, 10000)] 0).sharpe_ratio = 0
      ∧ (calculate_metrics 10000 [] [(0, 10000)] 0).max_drawdown = 0
      ∧ (calculate_metrics 10000 [] [(0, 10000)] 0).profit_factor = some 0
      ∧ (calculate_metrics 10000 [] [(0, 10000)] 0).final_equity = 10000 :=
  C6_metrics_degenerate 10000 [] [(0, 10000)] 0 rfl

/-- C7 (counterexample to the claim as stated): at a *negative* reference
price the function does divide by it and returns a nonzero value — the
source guard tests `past_price == 0`, not `<= 0`.  With closes `[-1, 1]`,
one period and index `1`, the reference price is `-1 ≤ 0` yet the result is
`((1 / -1) - 1) * 100 = -200 ≠ 0`. -/
theorem C7_counterexample :
    calculate_roc_safely [-1, 1] 1 1 = -200
      ∧ ([-1, 1] : List ℚ).getD 0 0 ≤ 0
      ∧ calculate_roc_safely [-1, 1] 1 1 ≠ 0 := by
  refine ⟨?_, by norm_num, ?_⟩ <;> norm_num [calculate_roc_safely]

/-- C7 (amended).  ROC safety: with fewer than `periods` past rows, or with
a reference price equal to zero, the computation returns the defined value
`0.0` without dividing; the division only happens when the reference price
is nonzero (a negative reference is divided by — without a fault). -/
theorem C7_roc_defined_zero (closes : List ℚ) (periods current_idx : ℕ) :
    (current_idx < periods → calculate_roc_safely closes periods current_idx = 0)
      ∧ (closes.getD (current_idx - periods) 0 = 0 →
          calculate_roc_safely closes periods current_idx = 0)
      ∧ (¬ current_idx < periods → closes.getD (current_idx - periods) 0 ≠ 0 →
          calculate_roc_safely closes periods current_idx
            = (closes.getD current_idx 0 / closes.getD (current_idx - periods) 0 - 1)
                * 100) := by
  refine ⟨?_, ?_, ?_⟩
  · intro h
    simp only [calculate_roc_safely]
    rw [if_pos h]
  · intro h
    by_cases hlt : current_idx < periods
    · simp only [calculate_roc_safely]
      rw [if_pos hlt]
    · simp only [calculate_roc_safely]
      rw [if_neg hlt, if_pos h]
  · intro h1 h2
    simp only [calculate_roc_safely]
    rw [if_neg h1, if_neg h2]

/-- Witness for C7 at concrete inputs exercising both zero branches and the
division branch. -/
theorem C7_witness :
    calculate_roc_safely [5, 10] 3 1 = 0
      ∧ calculate_roc_safely [0, 10] 1 1 = 0
      ∧ calculate_roc_safely [5, 10] 1 1 = (10 / 5 - 1) * 100 :=
  ⟨(C7_roc_defined_zero [5, 10] 3 1).1 (by norm_num),
   (C7_roc_defined_zero [0, 10] 1 1).2.1 (by norm_num),
   (C7_roc_defined_zero [5, 10] 1 1).2.2 (by norm_num) (by norm_num)⟩

/-!
Run-level induction machinery for `run_backtest`.
-/

/-- The log accumulator only grows at the back: folding from `(stp, logs)`
appends the same log suffix as folding from `(stp, [])`, and the final state
is independent of the initial log accumulator. -/
lemma run_foldl_shift (p : Params) : ∀ (fine : List Candle)
    (stp : BTState × List Candle) (logs : List StepLog),
    (fine.foldl (runAccum p) (stp, logs)).2
        = logs ++ (fine.foldl (runAccum p) (stp, [])).2
      ∧ (fine.foldl (runAccum p) (stp, logs)).1
        = (fine.foldl (runAccum p) (stp, [])).1 := by
  intro fine
  induction fine with
  | nil => intro stp logs; simp
  | cons c rest ih =>
    intro stp logs
    rw [List.foldl_cons, List.foldl_cons]
    have h1 : runAccum p (stp, logs) c
        = ((runStep p stp c).1, logs ++ [(runStep p stp c).2]) := rfl
    have h2 : runAccum p (stp, []) c
        = ((runStep p stp c).1, [] ++ [(runStep p stp c).2]) := rfl
    rw [h1, h2]
    have ha := ih (runStep p stp c).1 (logs ++ [(runStep p stp c).2])
    have hb := ih (runStep p stp c).1 ([] ++ [(runStep p stp c).2])
    refine ⟨?_, ha.2.trans hb.2.symm⟩
    rw [ha.1, hb.1]
    simp

/-- Every log produced by the fold satisfies `P`, given a state invariant `Q`
on the unadmitted 15m remainder that is preserved by `runStep` and forces `P`
on the step's log. -/
lemma run_logs_all (p : Params) {P : StepLog → Prop} {Q : List Candle → Prop}
    (hQ : ∀ (stp : BTState × List Candle) c, Q stp.2 → Q ((runStep p stp c).1.2))
    (hP : ∀ (stp : BTState × List Candle) c, Q stp.2 → P (runStep p stp c).2) :
    ∀ (fine : List Candle) (stp : BTState × List Candle) (logs : List StepLog),
    Q stp.2 → (∀ l ∈ logs, P l) →
    ∀ l ∈ (fine.foldl (runAccum p) (stp, logs)).2, P l := by
  intro fine
  induction fine with
  | nil => intro stp logs _ hl; simpa using hl
  | cons c rest ih =>
    intro stp logs hq hl
    rw [List.foldl_cons]
    have hacc : runAccum p (stp, logs) c
        = ((runStep p stp c).1, logs ++ [(runStep p stp c).2]) := rfl
    rw [hacc]
    apply ih _ _ (hQ stp c hq)
    intro l hll
    rcases List.mem_append.mp hll with h | h
    · exact hl l h
    · rw [List.mem_singleton] at h
      subst h
      exact hP stp c hq

/-- C1.  No-lookahead ordering: in every simulation run over a
timestamp-sorted 15m stream, each fine-grained step admits exactly the
not-yet-admitted 15m bars whose timestamp is `≤` the step's 1m timestamp, in
ascending timestamp order; every admitted bar satisfies `ts ≤ t`, so no
entry evaluation ever reads a 15m bar from after the decision timestamp;
and within the step's event trace all entry evaluations precede all exit
evaluations. -/
theorem C1_no_lookahead (p : Params) (coarse fine : List Candle) (cap : ℚ)
    (res : BTResult) (hres : run_backtest p coarse fine cap = some res)
    (hsorted : coarse.Pairwise (fun a b => a.ts ≤ b.ts)) :
    ∀ log ∈ res.logs,
      log.admitted = log.rem15Before.filter (fun b => decide (b.ts ≤ log.t))
        ∧ (∀ b ∈ log.admitted, b.ts ≤ log.t)
        ∧ log.admitted.Pairwise (fun a b => a.ts ≤ b.ts)
        ∧ log.events = log.admitted.map Ev.entryEval
            ++ log.exitsChecked.map (fun q => Ev.exitEval q.entry_timestamp) := by
  cases fine with
  | nil => simp [run_backtest] at hres
  | cons c0 rest =>
    simp only [run_backtest, Option.some.injEq] at hres
    rw [← hres]
    intro log hlog
    refine @run_logs_all p
      (fun log => log.admitted = log.rem15Before.filter (fun b => decide (b.ts ≤ log.t))
        ∧ (∀ b ∈ log.admitted, b.ts ≤ log.t)
        ∧ log.admitted.Pairwise (fun a b => a.ts ≤ b.ts)
        ∧ log.events = log.admitted.map Ev.entryEval
            ++ log.exitsChecked.map (fun q => Ev.exitEval q.entry_timestamp))
      (fun rem => rem.Pairwise (fun a b => a.ts ≤ b.ts))
      ?_ ?_ (c0 :: rest) (_, coarse) [] hsorted (by simp) log hlog
    · intro stp c hq
      have hdw : (runStep p stp c).1.2
          = stp.2.dropWhile (fun b => decide (b.ts ≤ c.ts)) := rfl
      rw [hdw]
      exact hq.sublist (List.dropWhile_sublist _)
    · intro stp c hq
      have hrem : (runStep p stp c).2.rem15Before = stp.2 := rfl
      have hadm : (runStep p stp c).2.admitted
          = stp.2.takeWhile (fun b => decide (b.ts ≤ c.ts)) := rfl
      have ht : (runStep p stp c).2.t = c.ts := rfl
      refine ⟨?_, ?_, ?_, rfl⟩
      · rw [hadm, hrem, ht]
        exact takeWhile_eq_filter_ts c.ts stp.2 hq
      · intro b hb
        rw [hadm] at hb
        rw [ht]
        have := List.mem_takeWhile_imp hb
        exact of_decide_eq_true this
      · rw [hadm]
        exact hq.sublist (List.takeWhile_sublist _)

/-- Witness for C1 on a concrete run. -/
theorem C1_witness :
    ∃ res, run_backtest {} demoCoarse demoFine (10000 : ℚ) = some res
      ∧ ∀ log ∈ res.logs,
          log.admitted = log.rem15Before.filter (fun b => decide (b.ts ≤ log.t))
            ∧ (∀ b ∈ log.admitted, b.ts ≤ log.t)
            ∧ log.admitted.Pairwise (fun a b => a.ts ≤ b.ts)
            ∧ log.events = log.admitted.map Ev.entryEval
                ++ log.exitsChecked.map (fun q => Ev.exitEval q.entry_timestamp) := by
  refine ⟨_, rfl, ?_⟩
  exact C1_no_lookahead {} demoCoarse demoFine 10000 _ rfl (by decide)

/-!
Accounting invariants over the run, for the realized-PnL formula.
-/

/-- A position's recorded cost basis is its size times its entry price. -/
def PosOK (q : Position) : Prop := q.cost_basis = q.size * q.entry_price

/-- A trade's realized PnL is `(exit_value - cost_basis) * leverage` minus
the *exit* fee, with `exit_value = quantity * exit_price` and
`cost_basis = quantity * entry_price`. -/
def TrOK (t : Trade) : Prop :=
  t.realized_pnl
    = (t.quantity * t.exit_price - t.quantity * t.entry_price) * t.leverage
      - calculate_fees (t.quantity * t.exit_price)

lemma processEntry_posOK (p : Params) (st : BTState) (bar : Candle)
    (h : ∀ q ∈ st.positions, PosOK q) :
    (∀ q ∈ (processEntry p st bar).positions, PosOK q)
      ∧ (processEntry p st bar).trades = st.trades := by
  simp only [processEntry]
  split
  · exact ⟨h, rfl⟩
  · refine ⟨?_, rfl⟩
    intro q hq
    simp only [List.mem_append, List.mem_singleton] at hq
    rcases hq with hq | hq
    · exact h q hq
    · subst hq
      rfl

lemma processEntry_pres (p : Params) (st : BTState) (bar : Candle)
    (h : (∀ q ∈ st.positions, PosOK q) ∧ (∀ t ∈ st.trades, TrOK t)) :
    (∀ q ∈ (processEntry p st bar).positions, PosOK q)
      ∧ (∀ t ∈ (processEntry p st bar).trades, TrOK t) := by
  obtain ⟨hp, ht⟩ := processEntry_posOK p st bar h.1
  exact ⟨hp, ht ▸ h.2⟩

lemma exitStep_pres (lf pr : ℚ) (c : Candle)
    (acc : ℚ × List Position × List Trade × ℚ) (pos : Position)
    (hpos : PosOK pos)
    (h1 : ∀ q ∈ acc.2.1, PosOK q) (h2 : ∀ t ∈ acc.2.2.1, TrOK t) :
    (∀ q ∈ (exitStep lf pr c acc pos).2.1, PosOK q)
      ∧ (∀ t ∈ (exitStep lf pr c acc pos).2.2.1, TrOK t) := by
  obtain ⟨cap, kept, trs, fees⟩ := acc
  obtain ⟨hsz, hep, hcb, hlev, -, -, -⟩ := check_exit_frame pos pr c
  simp only [exitStep]
  split
  · constructor
    · intro q hq
      simp only [List.mem_append, List.mem_singleton] at hq
      rcases hq with hq | hq
      · exact h1 q hq
      · subst hq
        unfold PosOK at hpos ⊢
        rw [hsz, hep, hcb, hpos]
    · exact h2
  · constructor
    · exact h1
    · intro t ht
      simp only [List.mem_append, List.mem_singleton] at ht
      rcases ht with ht | ht
      · exact h2 t ht
      · subst ht
        unfold TrOK
        simp only
        rw [hcb, hpos, ← hsz, ← hep]

lemma exitFold_inv (lf pr : ℚ) (c : Candle) : ∀ (ps : List Position),
    (∀ q ∈ ps, PosOK q) →
    ∀ (acc : ℚ × List Position × List Trade × ℚ),
    (∀ q ∈ acc.2.1, PosOK q) → (∀ t ∈ acc.2.2.1, TrOK t) →
    (∀ q ∈ (ps.foldl (exitStep lf pr c) acc).2.1, PosOK q)
      ∧ (∀ t ∈ (ps.foldl (exitStep lf pr c) acc).2.2.1, TrOK t) := by
  intro ps
  induction ps with
  | nil => intro _ acc h1 h2; exact ⟨h1, h2⟩
  | cons pos rest ih =>
    intro hps acc h1 h2
    rw [List.foldl_cons]
    have h := exitStep_pres lf pr c acc pos (hps pos (by simp)) h1 h2
    exact ih (fun q hq => hps q (by simp [hq])) _ h.1 h.2

lemma processExits_inv (st : BTState) (pr : ℚ) (c : Candle)
    (h1 : ∀ q ∈ st.positions, PosOK q) (h2 : ∀ t ∈ st.trades, TrOK t) :
    (∀ q ∈ (processExits st pr c).positions, PosOK q)
      ∧ (∀ t ∈ (processExits st pr c).trades, TrOK t) := by
  have hf := exitFold_inv st.lastEntryFee pr c st.positions h1
    (st.capital, [], [], 0) (by simp) (by simp)
  constructor
  · exact hf.1
  · intro t ht
    have hts : (processExits st pr c).trades
        = st.trades ++ (st.positions.foldl (exitStep st.lastEntryFee pr c)
            (st.capital, [], [], 0)).2.2.1 := rfl
    rw [hts] at ht
    rcases List.mem_append.mp ht with ht | ht
    · exact h2 t ht
    · exact hf.2 t ht

lemma runStep_trades_inv (p : Params) (stp : BTState × List Candle) (c : Candle)
    (h : (∀ q ∈ stp.1.positions, PosOK q) ∧ (∀ t ∈ stp.1.trades, TrOK t)) :
    (∀ q ∈ (runStep p stp c).1.1.positions, PosOK q)
      ∧ (∀ t ∈ (runStep p stp c).1.1.trades, TrOK t) := by
  have hst1 := @foldl_preserve Candle BTState (processEntry p)
    (fun st => (∀ q ∈ st.positions, PosOK q) ∧ (∀ t ∈ st.trades, TrOK t))
    (fun st bar hst => processEntry_pres p st bar hst)
    (stp.2.takeWhile (fun b => decide (b.ts ≤ c.ts))) stp.1 h
  exact processExits_inv _ c.close c hst1.1 hst1.2

/-- C2 (amended).  Every trade's recorded realized PnL equals
`(exit_value - cost_basis) * leverage - exit_fee`; the entry fee is debited
from capital when the position opens and is not part of `realized_pnl`. -/
theorem C2_realized_pnl_formula (p : Params) (coarse fine : List Candle)
    (cap : ℚ) (res : BTResult)
    (hres : run_backtest p coarse fine cap = some res) :
    ∀ tr ∈ res.trades,
      tr.realized_pnl
        = (tr.quantity * tr.exit_price - tr.quantity * tr.entry_price) * tr.leverage
          - calculate_fees (tr.quantity * tr.exit_price) := by
  cases fine with
  | nil => simp [run_backtest] at hres
  | cons c0 rest =>
    simp only [run_backtest, Option.some.injEq] at hres
    rw [← hres]
    intro tr htr
    have hinv := @foldl_preserve Candle ((BTState × List Candle) × List StepLog)
      (runAccum p)
      (fun acc => (∀ q ∈ acc.1.1.positions, PosOK q) ∧ (∀ t ∈ acc.1.1.trades, TrOK t))
      (fun acc c hacc => runStep_trades_inv p acc.1 c hacc)
      (c0 :: rest)
      (({ capital := cap, positions := [], trades := []
          equity_curve := [(c0.ts, cap)], fees_paid := 0
          lastEntryFee := 0, opened := 0 }, coarse), [])
      ⟨by simp, by simp⟩
    exact hinv.2 tr htr

/-- C2 (counterexample to the claim as stated): in a concrete run with one
entry (fee `1.2`) closed at take-profit, the recorded `realized_pnl` is
`138.716 = (2140 - 2000) * 1 - 1.284`, not
`137.516 = (2140 - 2000) * 1 - 1.2 - 1.284` as the claimed formula — which
also subtracts the entry fee — would require. -/
theorem C2_counterexample :
    ∃ res, run_backtest {} [bareBar 0 100] [bareBar 0 100, bareBar 1 107]
        (10000 : ℚ) = some res
      ∧ ∃ tr ∈ res.trades,
          calculate_fees (tr.quantity * tr.entry_price) ≠ 0
          ∧ tr.realized_pnl
              ≠ (tr.quantity * tr.exit_price - tr.quantity * tr.entry_price)
                  * tr.leverage
                - calculate_fees (tr.quantity * tr.entry_price)
                - calculate_fees (tr.quantity * tr.exit_price) := by
  refine ⟨_, rfl, ?_⟩
  refine ⟨⟨0, 1, 100, 107, 20, 34679/250, 621/250, 1, .take_profit⟩, by decide, by decide, by decide⟩

/-- Witness for C2 on the same concrete run. -/
theorem C2_witness :
    ∃ res, run_backtest {} [bareBar 0 100] [bareBar 0 100, bareBar 1 107]
        (10000 : ℚ) = some res
      ∧ ∀ tr ∈ res.trades,
          tr.realized_pnl
            = (tr.quantity * tr.exit_price - tr.quantity * tr.entry_price)
                * tr.leverage
              - calculate_fees (tr.quantity * tr.exit_price) :=
  ⟨_, rfl, C2_realized_pnl_formula {} [bareBar 0 100]
    [bareBar 0 100, bareBar 1 107] 10000 _ rfl⟩

/-!
Shape of the equity curve.
-/

lemma processEntry_equity (p : Params) (st : BTState) (bar : Candle) :
    (processEntry p st bar).equity_curve = st.equity_curve := by
  simp only [processEntry]
  split <;> rfl

lemma entriesFold_equity (p : Params) : ∀ (bars : List Candle) (st : BTState),
    (bars.foldl (processEntry p) st).equity_curve = st.equity_curve := by
  intro bars
  induction bars with
  | nil => intro st; rfl
  | cons b rest ih => intro st; rw [List.foldl_cons, ih, processEntry_equity]

lemma runStep_equity (p : Params) (stp : BTState × List Candle) (c : Candle) :
    (runStep p stp c).1.1.equity_curve
      = stp.1.equity_curve ++ [(runStep p stp c).2.equityPoint] := by
  have h0 : (runStep p stp c).1.1.equity_curve
      = ((stp.2.takeWhile (fun b => decide (b.ts ≤ c.ts))).foldl
          (processEntry p) stp.1).equity_curve
        ++ [(runStep p stp c).2.equityPoint] := rfl
  rw [h0, entriesFold_equity]

/-- Folding the 1m stream appends one equity point per processed candle, in
candle order, to the seeded equity curve. -/
lemma run_shape (p : Params) : ∀ (fine : List Candle) (stp : BTState × List Candle),
    (fine.foldl (runAccum p) (stp, [])).1.1.equity_curve
        = stp.1.equity_curve
          ++ ((fine.foldl (runAccum p) (stp, [])).2).map StepLog.equityPoint
      ∧ ((fine.foldl (runAccum p) (stp, [])).2).map StepLog.t = fine.map Candle.ts := by
  intro fine
  induction fine with
  | nil => intro stp; simp
  | cons c rest ih =>
    intro stp
    rw [List.foldl_cons]
    have hacc : runAccum p (stp, []) c
        = ((runStep p stp c).1, [(runStep p stp c).2]) := rfl
    rw [hacc]
    have hsh := run_foldl_shift p rest (runStep p stp c).1 [(runStep p stp c).2]
    have ihr := ih (runStep p stp c).1
    have hlogt : (runStep p stp c).2.t = c.ts := rfl
    constructor
    · rw [hsh.2, ihr.1, hsh.1, runStep_equity]
      simp
    · rw [hsh.1, List.map_append, ihr.2, List.map_cons, List.map_cons,
        List.map_nil, hlogt]
      rfl

/-- C4 (counterexample to the claim as stated): a run over a single 1m
candle produces an equity curve with `2` points, not `1` — the curve is
seeded with `(first timestamp, initial_capital)` before the loop. -/
theorem C4_counterexample :
    ((run_backtest {} [] [bareBar 0 100] 10000).map
        (fun r => r.equity_curve.length)) = some 2
      ∧ (2 : ℕ) ≠ 1 := by
  refine ⟨by decide, by decide⟩

/-- C4 (amended).  Over a fine-grained stream of `N ≥ 1` candles the equity
curve has exactly `N + 1` entries: a seed point `(first timestamp,
initial_capital)` followed by one point per candle, in candle order, each
appended after that step's entries and exits as
`(timestamp, capital + unrealized PnL of the still-open positions)`. -/
theorem C4_equity_curve_shape (p : Params) (coarse : List Candle) (c0 : Candle)
    (cs : List Candle) (cap : ℚ) (res : BTResult)
    (hres : run_backtest p coarse (c0 :: cs) cap = some res) :
    res.equity_curve = (c0.ts, cap) :: res.logs.map StepLog.equityPoint
      ∧ res.logs.map StepLog.t = (c0 :: cs).map Candle.ts
      ∧ res.equity_curve.length = (c0 :: cs).length + 1
      ∧ ∀ log ∈ res.logs,
          log.equityPoint
            = (log.t, log.capAfter + unrealizedSum log.price log.posAfter) := by
  simp only [run_backtest, Option.some.injEq] at hres
  rw [← hres]
  have hsh := run_shape p (c0 :: cs)
    ({ capital := cap, positions := [], trades := []
       equity_curve := [(c0.ts, cap)], fees_paid := 0
       lastEntryFee := 0, opened := 0 }, coarse)
  refine ⟨?_, hsh.2, ?_, ?_⟩
  · have h1 := hsh.1
    rw [h1]
    rfl
  · rw [hsh.1, List.length_append, List.length_map]
    have hlen := congrArg List.length hsh.2
    simp only [List.length_map] at hlen
    rw [hlen]
    simp only [List.length_singleton]
    omega
  · intro log hlog
    refine @run_logs_all p
      (fun log => log.equityPoint
        = (log.t, log.capAfter + unrealizedSum log.price log.posAfter))
      (fun _ => True)
      (fun _ _ _ => trivial) (fun stp c _ => rfl)
      (c0 :: cs) (_, coarse) [] trivial (by simp) log hlog

/-- Witness for C4 on a concrete one-candle run. -/
theorem C4_witness :
    ∃ res, run_backtest {} [] [bareBar 0 100] (10000 : ℚ) = some res
      ∧ (res.equity_curve
            = ((bareBar 0 100).ts, 10000) :: res.logs.map StepLog.equityPoint
          ∧ res.logs.map StepLog.t = [bareBar 0 100].map Candle.ts
          ∧ res.equity_curve.length = [bareBar 0 100].length + 1
          ∧ ∀ log ∈ res.logs,
              log.equityPoint
                = (log.t, log.capAfter + unrealizedSum log.price log.posAfter)) :=
  ⟨_, rfl, C4_equity_curve_shape {} [] (bareBar 0 100) [] 10000 _ rfl⟩

/-!
Open positions at end of stream: conservation of the opened-position count.
-/

/-- Every opened position is accounted for either by a recorded trade or by
a still-open position. -/
def openedInv (st : BTState) : Prop :=
  st.opened = st.trades.length + st.positions.length

lemma processEntry_opened (p : Params) (st : BTState) (bar : Candle)
    (h : openedInv st) : openedInv (processEntry p st bar) := by
  simp only [processEntry]
  split
  · exact h
  · unfold openedInv at h ⊢
    simp only [List.length_append, List.length_singleton]
    omega

lemma exitFold_count (lf pr : ℚ) (c : Candle) : ∀ (ps : List Position)
    (acc : ℚ × List Position × List Trade × ℚ),
    ((ps.foldl (exitStep lf pr c) acc)).2.1.length
        + ((ps.foldl (exitStep lf pr c) acc)).2.2.1.length
      = acc.2.1.length + acc.2.2.1.length + ps.length := by
  intro ps
  induction ps with
  | nil => intro acc; simp
  | cons pos rest ih =>
    intro acc
    rw [List.foldl_cons, ih]
    obtain ⟨cap, kept, trs, fees⟩ := acc
    simp only [exitStep]
    split <;> simp <;> omega

lemma processExits_opened (st : BTState) (pr : ℚ) (c : Candle)
    (h : openedInv st) : openedInv (processExits st pr c) := by
  unfold openedInv at h ⊢
  have hc := exitFold_count st.lastEntryFee pr c st.positions
    (st.capital, [], [], 0)
  have h1 : (processExits st pr c).positions
      = (st.positions.foldl (exitStep st.lastEntryFee pr c)
          (st.capital, [], [], 0)).2.1 := rfl
  have h2 : (processExits st pr c).trades
      = st.trades ++ (st.positions.foldl (exitStep st.lastEntryFee pr c)
          (st.capital, [], [], 0)).2.2.1 := rfl
  have h3 : (processExits st pr c).opened = st.opened := rfl
  rw [h1, h2, h3, List.length_append]
  simp only [List.length_nil] at hc
  omega

lemma runStep_opened (p : Params) (stp : BTState × List Candle) (c : Candle)
    (h : openedInv stp.1) : openedInv (runStep p stp c).1.1 := by
  have hst1 := @foldl_preserve Candle BTState (processEntry p) openedInv
    (fun st bar hst => processEntry_opened p st bar hst)
    (stp.2.takeWhile (fun b => decide (b.ts ≤ c.ts))) stp.1 h
  have hx := processExits_opened
    ((stp.2.takeWhile (fun b => decide (b.ts ≤ c.ts))).foldl (processEntry p) stp.1)
    c.close c hst1
  unfold openedInv at hx ⊢
  exact hx

/-- C10.  Positions still open when the fine-grained stream is exhausted are
never closed: in every run the number of opened positions equals recorded
trades plus still-open positions (so open positions produced no Trade and
are excluded from the trade-based metrics).  On the concrete `demoCoarse` /
`demoFine` run one position stays open at the end, the reported
`final_equity` is the last equity point — capital plus that position's
unrealized PnL — and `final_equity - initial_capital` differs from
`total_pnl - total_fees`. -/
theorem C10_open_positions_excluded :
    (∀ (p : Params) (coarse fine : List Candle) (cap : ℚ) (res : BTResult),
        run_backtest p coarse fine cap = some res →
        res.opened = res.trades.length + res.positions.length)
      ∧ (∃ res, run_backtest {} demoCoarse demoFine (10000 : ℚ) = some res
          ∧ res.trades.length = 1 ∧ res.positions.length = 1
          ∧ ∃ s, backtest_summary {} demoCoarse demoFine 10000 = some s
              ∧ s.total_trades = 1
              ∧ s.final_equity = res.capital + unrealizedSum 103 res.positions
              ∧ s.final_equity - 10000 ≠ s.total_pnl - s.total_fees) := by
  constructor
  · intro p coarse fine cap res hres
    cases fine with
    | nil => simp [run_backtest] at hres
    | cons c0 rest =>
      simp only [run_backtest, Option.some.injEq] at hres
      rw [← hres]
      have hinv := @foldl_preserve Candle ((BTState × List Candle) × List StepLog)
        (runAccum p) (fun acc => openedInv acc.1.1)
        (fun acc c hacc => runStep_opened p acc.1 c hacc)
        (c0 :: rest)
        (({ capital := cap, positions := [], trades := []
            equity_curve := [(c0.ts, cap)], fees_paid := 0
            lastEntryFee := 0, opened := 0 }, coarse), [])
        (by unfold openedInv; rfl)
      unfold openedInv at hinv
      exact hinv
  · refine ⟨_, rfl, by decide, by decide, _, rfl, by decide, by decide, by decide⟩

/-- Witness for C10's universal part at a concrete run. -/
theorem C10_witness :
    ∃ res, run_backtest {} [] [bareBar 0 100] (10000 : ℚ) = some res
      ∧ res.opened = res.trades.length + res.positions.length :=
  ⟨_, rfl, C10_open_positions_excluded.1 {} [] [bareBar 0 100] 10000 _ rfl⟩

/-- C10 (counterexample to the claim's parenthetical): in a run that opens a
position but closes no trade, the summary's `final_equity` is the degenerate
branch's `initial_capital` — *not* the last equity point, and it does not
include the open position's unrealized PnL.  Here the last equity point is
`9998.8 + 20 = 10018.8` (capital net of the entry fee plus unrealized PnL)
while the reported `final_equity` is `10000`. -/
theorem C10_counterexample :
    ∃ res, run_backtest {} [bareBar 0 100] [bareBar 0 100, bareBar 1 101]
        (10000 : ℚ) = some res
      ∧ res.trades = [] ∧ res.positions.length = 1
      ∧ (res.equity_curve.getLast?).map Prod.snd = some (50094/5)
      ∧ ∃ s, backtest_summary {} [bareBar 0 100] [bareBar 0 100, bareBar 1 101]
            10000 = some s
          ∧ s.final_equity = 10000
          ∧ (10000 : ℚ) ≠ 50094/5 := by
  refine ⟨_, rfl, by decide, by decide, by decide, _, rfl, by decide, by decide⟩

/-!
Walk-forward validation.
-/

/-- A 15m frame of 6 bars at minutes 0, 15, ..., 75. -/
def wfCoarse : List Candle := (List.range 6).map (fun i => bareBar (15 * i) 100)

/-- The aligned 1m frame of 90 bars at minutes 0, ..., 89. -/
def wfFine : List Candle := (List.range 90).map (fun i => bareBar i 100)

/-- C8 (walk-forward slicing evaluated at a failing input, plus the verdict
thresholds).  With 6 15m bars and 90 aligned 1m bars and `K = 3`, split `0`
has 15m-index bounds `[0, 2)` and `train_end = 1`, so the 15m validation
window is the bar at minute `15`; but the 1m rows handed to the backtest are
selected with the same positional indices on the 1m frame, yielding the bar
at minute `1` — earlier than, and disjoint from, the validation window
(likewise split `1`: window bar at minute `45`, 1m row at minute `3`).  The
robustness verdict is exactly `avg_sharpe > 0.5 ∧ avg_win_rate > 0.55 ∧
avg_max_dd < 0.15`, checked at its three threshold boundaries. -/
theorem C8_wf_fine_slice_misaligned :
    (wfValPair wfCoarse wfFine 3 0).1.map Candle.ts = [15]
      ∧ (wfValPair wfCoarse wfFine 3 0).2.map Candle.ts = [1]
      ∧ (wfValPair wfCoarse wfFine 3 1).1.map Candle.ts = [45]
      ∧ (wfValPair wfCoarse wfFine 3 1).2.map Candle.ts = [3]
      ∧ (1 : ℤ) < 15 ∧ (3 : ℤ) < 45
      ∧ is_robust (3/5) (3/5) (1/10) = true
      ∧ is_robust (1/2) (3/5) (1/10) = false
      ∧ is_robust (3/5) (11/20) (1/10) = false
      ∧ is_robust (3/5) (3/5) (3/20) = false := by
  decide

/-!
Entry evaluation on bars with no optional indicator data.
-/

/-- C9 (corrected).  A 15m bar carrying none of the optional indicator
fields always satisfies `rsi_ok` (default RSI 50), `volume_spike_ok`
(default volume multiple 1.0) and `bb_ok` (default Bollinger bounds around
the close), and also `spread_ok` whenever the configured spread ceiling is
non-negative (its default is 8); hence at least `3 ≥ 2` sub-conditions hold
and entry evaluation returns a signal for every such bar — missing
indicator data never blocks an entry. -/
theorem C9_missing_fields_entry (p : Params) (t : ℤ) (cl cap : ℚ)
    (h : 0 < cl) :
    rsi_ok (bareBar t cl) = true
      ∧ volume_spike_ok (bareBar t cl) = true
      ∧ bb_ok (bareBar t cl) = true
      ∧ (0 ≤ p.maxSpreadBps → spread_ok p (bareBar t cl) = true)
      ∧ 3 ≤ conditions_met p (bareBar t cl)
      ∧ (check_entry_conditions p (bareBar t cl) cap).isSome = true := by
  have hrsi : rsi_ok (bareBar t cl) = true := by rfl
  have hspike : volume_spike_ok (bareBar t cl) = true := by rfl
  have hwidth : cl * (11/10) - cl * (9/10) > 0 := by nlinarith
  have hbbpos : bb_position (bareBar t cl) = 1/2 := by
    show (if cl * (11/10) - cl * (9/10) > 0
        then (cl - cl * (9/10)) / (cl * (11/10) - cl * (9/10)) else 1/2) = 1/2
    rw [if_pos hwidth, div_eq_iff (ne_of_gt hwidth)]
    ring
  have hbb : bb_ok (bareBar t cl) = true := by
    rw [bb_ok, hbbpos]
    norm_num
  have hcount : 3 ≤ conditions_met p (bareBar t cl) := by
    simp only [conditions_met, conditionsList, List.map_cons, List.map_nil,
      List.sum_cons, List.sum_nil, hrsi, hspike, hbb, Bool.toNat_true]
    omega
  refine ⟨hrsi, hspike, hbb, ?_, hcount, ?_⟩
  · intro hsp
    have hsp' : spread_ok p (bareBar t cl)
        = decide ((0 : ℚ) ≤ p.maxSpreadBps) := rfl
    rw [hsp', decide_eq_true_eq]
    exact hsp
  · simp only [check_entry_conditions]
    rw [if_pos (le_trans (by norm_num) hcount)]
    rfl

/-- C9 (counterexample to the claim as stated): at a negative configured
spread ceiling the default `spread_bps = 0` does *not* satisfy `spread_ok`,
so the claim's "rsi_ok, spread_ok, and bb_ok are all satisfied" fails —
even though the entry signal is still produced. -/
theorem C9_counterexample :
    (bareBar 0 100).spread_bps = none
      ∧ spread_ok { maxSpreadBps := -1 } (bareBar 0 100) = false
      ∧ (check_entry_conditions { maxSpreadBps := -1 } (bareBar 0 100)
          10000).isSome = true := by
  decide

/-- Witness for C9 at the default parameters and a bare bar. -/
theorem C9_witness :
    (0 : ℚ) < 100
      ∧ (rsi_ok (bareBar 5 100) = true
        ∧ volume_spike_ok (bareBar 5 100) = true
        ∧ bb_ok (bareBar 5 100) = true
        ∧ (0 ≤ ({} : Params).maxSpreadBps → spread_ok {} (bareBar 5 100) = true)
        ∧ 3 ≤ conditions_met {} (bareBar 5 100)
        ∧ (check_entry_conditions {} (bareBar 5 100) 10000).isSome = true) :=
  ⟨by norm_num, C9_missing_fields_entry {} 5 100 10000 (by norm_num)⟩

end MarketSentry
